import Mathlib

/-!
# Verification of the Catime words-display module

Shallow embedding of `words_display.c` (the CET-4 word display subsystem).
Wide strings (`wchar_t*`) are modelled as `List Char`; the Windows `DWORD`
tick counter is modelled as `Nat` with explicit reduction modulo `2^32`
wherever the C code performs `DWORD` arithmetic; C `int` values are
modelled as `Int`.  The external resource provider
(`LoadResourceToUtf8Buffer` together with `Utf8ToWideAlloc`) is modelled
as an `Option (List Char)` parameter: `none` when the provider fails,
`some buf` when it supplies the already-decoded wide text.
-/

namespace WordsDisplay

/-- `DWORD` modulus: the tick counter wraps after its native 32-bit range. -/
def dwordMod : Nat := 2 ^ 32

/-- Embeds the C struct `WordEntry`: four wide-string fields.  `NULL`
pointers and empty strings behave identically in every reader of these
fields, so both are modelled as `[]`. -/
structure WordEntry where
  name : List Char
  uk : List Char
  us : List Char
  trans : List Char
  deriving DecidableEq, Repr

/-- Default entry used by total list lookups (never reached when the stored
count matches the list length). -/
def emptyEntry : WordEntry := ⟨[], [], [], []⟩

/-- Embeds the module's mutable globals: `g_words` (`none` models the
`NULL` array pointer), `g_wordCount`, `g_currentIndex`, `g_nextSwitchTick`
and `g_initialized`. -/
structure Store where
  words : Option (List WordEntry)
  wordCount : Int
  currentIndex : Int
  nextSwitchTick : Nat
  initialized : Bool
  deriving DecidableEq, Repr

/-- The state of the globals at program start:
`g_words = NULL, g_wordCount = 0, g_currentIndex = -1, g_nextSwitchTick = 0,
g_initialized = FALSE`. -/
def initialStore : Store :=
  { words := none, wordCount := 0, currentIndex := -1
    nextSwitchTick := 0, initialized := false }

/-- Embeds the configuration globals read by the module:
`WORD_DISPLAY_ENABLED`, `WORD_SWITCH_INTERVAL_SEC`, `WORD_SHOW_PHONETIC`,
`WORD_PHONETIC_MODE`, `WORD_SHOW_CHINESE`, `WORD_CHINESE_MAX_LEN`. -/
structure Config where
  displayEnabled : Bool
  switchIntervalSec : Int
  showPhonetic : Bool
  phoneticMode : Int
  showChinese : Bool
  chineseMaxLen : Int
  deriving DecidableEq, Repr

/-! ## Trimming (`TrimWideInPlace`) -/

/-- The character set stripped from the END of a field by
`TrimWideInPlace` (its first loop): space, tab, carriage return, newline. -/
def isTrailWs (c : Char) : Bool :=
  c = ' ' || c = '\t' || c = '\r' || c = '\n'

/-- The character set skipped at the START of a field by
`TrimWideInPlace` (its second loop): space and tab only. -/
def isLeadWs (c : Char) : Bool :=
  c = ' ' || c = '\t'

/-- Embeds `TrimWideInPlace`: first strip trailing space/tab/CR/LF, then
skip leading space/tab and shift. -/
def TrimWideInPlace (s : List Char) : List Char :=
  ((s.reverse.dropWhile isTrailWs).reverse).dropWhile isLeadWs

/-! ## TSV parsing (`ParseTsvToWords`) -/

/-- The error kinds the spec assigns to the two failing returns of
`ParseTsvToWords`: the line-count guard and the empty-result guard. -/
inductive ParseError where
  | insufficientData
  | noUsableEntries
  deriving DecidableEq, Repr

/-- The line counter of `ParseTsvToWords`: the number of `'\n'` characters
in the buffer. -/
def countNewlines (s : List Char) : Nat :=
  (s.filter (fun c => c = '\n')).length

/-- Embeds the `wcstok_s(..., L"\n", ...)` loop: the maximal non-empty
runs of non-newline characters, in order (`wcstok` skips empty tokens). -/
def splitLines (s : List Char) : List (List Char) :=
  (s.splitOn '\n').filter (fun l => l ≠ [])

/-- Splits a line at its first tab, if any: embeds one step of the
field-splitting loop in `ParseTsvToWords` (`*p = 0; fields[fi++] = p + 1`). -/
def breakTab : List Char → List Char × Option (List Char)
  | [] => ([], none)
  | c :: rest =>
    if c = '\t' then ([], some rest)
    else
      let r := breakTab rest
      (c :: r.1, r.2)

/-- Embeds the field-splitting loop: at most `fuel` tab splits are
performed (the C loop stops once `fi` reaches 4, i.e. after 3 splits), the
remainder — tabs included — stays in the last field. -/
def splitFieldsAux : Nat → List Char → List (List Char)
  | 0, s => [s]
  | fuel + 1, s =>
    match breakTab s with
    | (a, none) => [a]
    | (a, some rest) => a :: splitFieldsAux fuel rest

/-- The up-to-4 tab-separated fields of one line. -/
def splitFields (line : List Char) : List (List Char) :=
  splitFieldsAux 3 line

/-- Embeds the per-line body of the parse loop: trim every present field,
drop the row if the trimmed name is empty, otherwise build the entry with
missing or empty trailing fields defaulting to the empty string. -/
def parseRow (line : List Char) : Option WordEntry :=
  let ts := (splitFields line).map TrimWideInPlace
  if ts.headD [] = [] then none
  else some
    { name := ts.headD []
      uk := ts.getD 1 []
      us := ts.getD 2 []
      trans := ts.getD 3 [] }

/-- Embeds `ParseTsvToWords`: count newlines, fail below 10, split into
lines, filter rows, fail when nothing survived. -/
def ParseTsvToWords (wide : List Char) : Except ParseError (List WordEntry) :=
  if countNewlines wide < 10 then .error .insufficientData
  else
    let entries := (splitLines wide).filterMap parseRow
    if entries.length ≤ 0 then .error .noUsableEntries
    else .ok entries

/-! ## Public API

`GetTickCount()` readings are passed in as explicit `Nat` parameters
(`initTick` for the read inside `WordsDisplay_Init`, `nowTick`/`now` for
the reads in `WordsDisplay_Tick`/`WordsDisplay_Next`), and the resource
provider as `Option (List Char)`.  Each operation returns the new global
state together with its C return value. -/

/-- Embeds `WordsDisplay_Init`: idempotent once `g_initialized` is set —
and the code sets `g_initialized = TRUE` *before* attempting the load.
On load/parse failure the globals are otherwise untouched; on success the
words are installed, the index is seeded from the tick modulo the count,
and the switch deadline is armed. -/
def WordsDisplay_Init (provider : Option (List Char)) (initTick : Nat)
    (cfg : Config) (s : Store) : Store × Bool :=
  if s.initialized then (s, true)
  else
    let s1 := { s with initialized := true }
    match provider with
    | none => (s1, false)
    | some buf =>
      match ParseTsvToWords buf with
      | .error _ => (s1, false)
      | .ok entries =>
        let count : Int := entries.length
        let idx : Int := if count > 0 then (initTick % entries.length : Nat) else 0
        let armed : Nat :=
          (initTick +
            (if cfg.switchIntervalSec > 0
             then (cfg.switchIntervalSec * 1000).toNat % dwordMod else 0)) % dwordMod
        ({ s1 with words := some entries, wordCount := count,
                   currentIndex := idx, nextSwitchTick := armed }, true)

/-- Embeds `WordsDisplay_Shutdown` (via `FreeWords`): releases the
entries, resets count and index, clears `g_initialized`.  The armed
deadline variable is not touched. -/
def WordsDisplay_Shutdown (s : Store) : Store :=
  { s with words := none, wordCount := 0, currentIndex := -1, initialized := false }

/-- Embeds `SetCurrentIndex`: clamp negatives and out-of-range values to
0, report whether the stored index actually changed. -/
def SetCurrentIndex (s : Store) (idx : Int) : Store × Bool :=
  if s.words.isNone || s.wordCount ≤ 0 then (s, false)
  else
    let i1 := if idx < 0 then 0 else idx
    let i2 := if i1 ≥ s.wordCount then 0 else i1
    if s.currentIndex ≠ i2 then ({ s with currentIndex := i2 }, true)
    else (s, false)

/-- Embeds `WordsDisplay_Next`: lazy init, advance by one via
`SetCurrentIndex`, re-arm the deadline when the interval is positive. -/
def WordsDisplay_Next (provider : Option (List Char)) (initTick : Nat)
    (cfg : Config) (s : Store) (now : Nat) : Store × Bool :=
  let s0 := if s.initialized then s
            else (WordsDisplay_Init provider initTick cfg s).1
  if s0.words.isNone || s0.wordCount ≤ 0 then (s0, false)
  else
    let r := SetCurrentIndex s0 (s0.currentIndex + 1)
    if cfg.switchIntervalSec > 0 then
      ({ r.1 with nextSwitchTick :=
           (now + cfg.switchIntervalSec.toNat % dwordMod * 1000 % dwordMod) % dwordMod },
       r.2)
    else r

/-- Embeds `WordsDisplay_Tick`: enabled-flag gate, lazy init, interval
gate, then the plain unsigned comparison `nowTick >= g_nextSwitchTick`;
when due, advance one step and re-arm from `nowTick`. -/
def WordsDisplay_Tick (provider : Option (List Char)) (initTick : Nat)
    (cfg : Config) (s : Store) (nowTick : Nat) : Store × Bool :=
  if !cfg.displayEnabled then (s, false)
  else
    let s0 := if s.initialized then s
              else (WordsDisplay_Init provider initTick cfg s).1
    if s0.words.isNone || s0.wordCount ≤ 0 then (s0, false)
    else if cfg.switchIntervalSec ≤ 0 then (s0, false)
    else if nowTick ≥ s0.nextSwitchTick then
      let r := SetCurrentIndex s0 (s0.currentIndex + 1)
      ({ r.1 with nextSwitchTick :=
           (nowTick + cfg.switchIntervalSec.toNat % dwordMod * 1000 % dwordMod) % dwordMod },
       r.2)
    else (s0, false)

/-! ## Formatting (`AppendWithLimit`, `AppendCnTruncated`,
`WordsDisplay_FormatSuffix`)

The output buffer is modelled by the string it holds; `wcsncat(out, s, n)`
appends at most `n` characters of `s` (plus the terminator). -/

/-- Embeds `AppendWithLimit`: no-op on a zero capacity or a full buffer,
otherwise append at most `outChars - 1 - wcslen(out)` characters. -/
def AppendWithLimit (out : List Char) (outChars : Nat) (s : List Char) : List Char :=
  if outChars = 0 then out
  else if out.length ≥ outChars - 1 then out
  else out ++ s.take (outChars - 1 - out.length)

/-- The single ellipsis character `L"…"` appended after a truncated
translation. -/
def ellipsis : List Char := ['…']

/-- Embeds `AppendCnTruncated`: empty translation is a no-op; a
non-positive configured max appends in full; a translation within the max
is appended verbatim; a longer one is cut to `min max 240` characters
(`tmp`) and followed by the ellipsis. -/
def AppendCnTruncated (maxLen : Int) (out : List Char) (outChars : Nat)
    (cn : List Char) : List Char :=
  if cn = [] then out
  else if maxLen ≤ 0 then AppendWithLimit out outChars cn
  else
    let len : Int := cn.length
    if len ≤ maxLen then AppendWithLimit out outChars cn
    else
      let copy : Nat := if maxLen.toNat > 240 then 240 else maxLen.toNat
      let tmp := cn.take copy
      AppendWithLimit (AppendWithLimit out outChars tmp) outChars ellipsis

/-- The body of `WordsDisplay_FormatSuffix` after its guards: the append
sequence for entry `e` under configuration `cfg`, starting from the
emptied buffer (`out[0] = 0`). -/
def FormatBody (cfg : Config) (e : WordEntry) (outChars : Nat) : List Char :=
  let o1 := AppendWithLimit [] outChars [' ', ' ']
  let o2 := AppendWithLimit o1 outChars e.name
  let o3 :=
    if cfg.showPhonetic then
      if cfg.phoneticMode = 2 then
        let a := if e.uk ≠ [] then
            AppendWithLimit
              (AppendWithLimit (AppendWithLimit o2 outChars [' ', '[']) outChars e.uk)
              outChars [']']
          else o2
        if e.us ≠ [] then
          AppendWithLimit
            (AppendWithLimit (AppendWithLimit a outChars [' ', '[']) outChars e.us)
            outChars [']']
        else a
      else if cfg.phoneticMode = 1 then
        if e.us ≠ [] then
          AppendWithLimit
            (AppendWithLimit (AppendWithLimit o2 outChars [' ', '[']) outChars e.us)
            outChars [']']
        else o2
      else
        if e.uk ≠ [] then
          AppendWithLimit
            (AppendWithLimit (AppendWithLimit o2 outChars [' ', '[']) outChars e.uk)
            outChars [']']
        else o2
    else o2
  if cfg.showChinese then
    if e.trans ≠ [] then
      AppendCnTruncated cfg.chineseMaxLen
        (AppendWithLimit o3 outChars [' ', '·', ' ']) outChars e.trans
    else o3
  else o3

/-- Embeds `WordsDisplay_FormatSuffix`.  The second component is the
buffer content after the call: `none` when the buffer is not written at
all (`outChars == 0`), `some r` when the call terminates the buffer
(`out[0] = 0` and possibly appends). -/
def WordsDisplay_FormatSuffix (provider : Option (List Char)) (initTick : Nat)
    (cfg : Config) (s : Store) (outChars : Nat) : Store × Option (List Char) :=
  if outChars = 0 then (s, none)
  else if !cfg.displayEnabled then (s, some [])
  else
    let s0 := if s.initialized then s
              else (WordsDisplay_Init provider initTick cfg s).1
    if s0.words.isNone || s0.wordCount ≤ 0 ||
        s0.currentIndex < 0 || s0.currentIndex ≥ s0.wordCount then
      (s0, some [])
    else
      let e := (s0.words.getD []).getD s0.currentIndex.toNat emptyEntry
      (s0, some (FormatBody cfg e outChars))

/-! ## Concrete inputs used in witnesses and counterexamples -/

/-- Ten lines where the last line is not newline-terminated: the buffer
splits into ten lines but contains only nine `'\n'` characters. -/
def tenLinesNoFinalNewline : List Char := "a\nb\nc\nd\ne\nf\ng\nh\ni\nj".toList

/-- Ten newline-terminated rows; the first field of the first row starts
with a carriage return. -/
def crFieldBuffer : List Char := "\rcat\ta\nb\nc\nd\ne\nf\ng\nh\ni\nj\n".toList

/-- Ten well-formed newline-terminated rows: parses into ten entries. -/
def goodBuffer : List Char := "a\nb\nc\nd\ne\nf\ng\nh\ni\nj\n".toList

/-- The configuration globals as initialized at the top of the C file. -/
def cfgDefault : Config :=
  { displayEnabled := false, switchIntervalSec := 20, showPhonetic := true
    phoneticMode := 0, showChinese := true, chineseMaxLen := 10 }

/-- An enabled configuration with a 20-second switch interval. -/
def cfgEnabled : Config :=
  { displayEnabled := true, switchIntervalSec := 20, showPhonetic := true
    phoneticMode := 0, showChinese := true, chineseMaxLen := 10 }

/-- A two-entry initialized store whose deadline was armed at tick
`2^32 - 1000` with a 20000 ms interval: the arming computation wrapped,
leaving the deadline at `(2^32 - 1000 + 20000) % 2^32 = 19000`. -/
def storeTwoEntries : Store :=
  { words := some [⟨['a'], [], [], []⟩, ⟨['b'], [], [], []⟩]
    wordCount := 2, currentIndex := 0
    nextSwitchTick := 19000, initialized := true }

/-! ## Helper lemmas -/

theorem length_appendWithLimit_le {out : List Char} {n : Nat} (s : List Char)
    (h : out.length ≤ n - 1) : (AppendWithLimit out n s).length ≤ n - 1 := by
  unfold AppendWithLimit
  split_ifs with h0 h1
  · exact h
  · exact h
  · simp only [List.length_append, List.length_take]
    omega

theorem length_appendCnTruncated_le {out : List Char} {n : Nat} (maxLen : Int)
    (cn : List Char) (h : out.length ≤ n - 1) :
    (AppendCnTruncated maxLen out n cn).length ≤ n - 1 := by
  simp only [AppendCnTruncated]
  split_ifs <;>
    first
      | exact h
      | exact length_appendWithLimit_le _ h
      | exact length_appendWithLimit_le _ (length_appendWithLimit_le _ h)

theorem length_formatBody_le (cfg : Config) (e : WordEntry) (n : Nat) :
    (FormatBody cfg e n).length ≤ n - 1 := by
  have base : ([] : List Char).length ≤ n - 1 := by simp
  simp only [FormatBody]
  split_ifs <;>
    · repeat
        first
          | exact base
          | apply length_appendCnTruncated_le
          | apply length_appendWithLimit_le

/-! ## C1 -/

/-- C1: for every capacity `outChars ≥ 1`, every store state and every
configuration, `WordsDisplay_FormatSuffix` terminates the buffer and the
written string has at most `outChars - 1` characters, whatever the length
of the current entry's name, phonetic and translation fields. -/
theorem formatSuffix_length_bounded (provider : Option (List Char))
    (initTick : Nat) (cfg : Config) (s : Store) (outChars : Nat)
    (h : 1 ≤ outChars) :
    ∃ r, (WordsDisplay_FormatSuffix provider initTick cfg s outChars).2 = some r
      ∧ r.length ≤ outChars - 1 := by
  simp only [WordsDisplay_FormatSuffix]
  split_ifs <;>
    first
      | omega
      | exact ⟨[], rfl, by simp⟩
      | exact ⟨_, rfl, length_formatBody_le _ _ _⟩

/-- A 100-character name in a store formatted into a 5-character buffer:
at most 4 characters are written. -/
theorem formatSuffix_length_bounded_witness :
    ∃ r, (WordsDisplay_FormatSuffix none 0
            ⟨true, 20, true, 0, true, 10⟩
            { words := some [⟨List.replicate 100 'x', [], [], []⟩],
              wordCount := 1, currentIndex := 0,
              nextSwitchTick := 0, initialized := true } 5).2 = some r
      ∧ r.length ≤ 5 - 1 :=
  formatSuffix_length_bounded none 0 _ _ 5 (by decide)

/-! ## `SetCurrentIndex` helper lemmas -/

theorem setCurrentIndex_fields (s : Store) (idx : Int) :
    (SetCurrentIndex s idx).1.words = s.words
    ∧ (SetCurrentIndex s idx).1.wordCount = s.wordCount
    ∧ (SetCurrentIndex s idx).1.nextSwitchTick = s.nextSwitchTick
    ∧ (SetCurrentIndex s idx).1.initialized = s.initialized := by
  simp only [SetCurrentIndex]
  split_ifs <;> simp

theorem emod_succ_eq (c n : Int) (hlo : 0 ≤ c) (hhi : c < n) :
    (c + 1) % n = if c + 1 ≥ n then 0 else c + 1 := by
  split_ifs with hge
  · have he : c + 1 = n := by omega
    rw [he, Int.emod_self]
  · exact Int.emod_eq_of_lt (by omega) (by omega)

theorem setCurrentIndex_index (s : Store) (ws : List WordEntry)
    (hwords : s.words = some ws) (hcount : 1 ≤ s.wordCount)
    (hlo : 0 ≤ s.currentIndex) (hhi : s.currentIndex < s.wordCount) :
    (SetCurrentIndex s (s.currentIndex + 1)).1.currentIndex
      = (s.currentIndex + 1) % s.wordCount := by
  rw [emod_succ_eq _ _ hlo hhi]
  have hc0 : ¬ s.wordCount ≤ 0 := by omega
  have hneg : ¬ s.currentIndex + 1 < 0 := by omega
  simp only [SetCurrentIndex, hwords, hc0, hneg]
  split_ifs <;> simp_all

theorem setCurrentIndex_changed (s : Store) (ws : List WordEntry)
    (hwords : s.words = some ws) (hcount : 2 ≤ s.wordCount)
    (hlo : 0 ≤ s.currentIndex) (hhi : s.currentIndex < s.wordCount) :
    (SetCurrentIndex s (s.currentIndex + 1)).2 = true := by
  have hc0 : ¬ s.wordCount ≤ 0 := by omega
  have hneg : ¬ s.currentIndex + 1 < 0 := by omega
  simp only [SetCurrentIndex, hwords, hc0, hneg]
  split_ifs <;> first | rfl | omega | simp_all

/-! ## C2 -/

/-- C2: on an initialized store with at least one entry and a valid
current index, with the feature enabled, a positive interval and `nowTick`
at or past the armed deadline, `WordsDisplay_Tick` advances the index by
exactly one step (modulo the count — never more, however far `nowTick`
is beyond the deadline) and re-arms the deadline to `nowTick` plus one
interval (in `DWORD` milliseconds). -/
theorem tick_due_advances_exactly_one
    (provider : Option (List Char)) (initTick : Nat) (cfg : Config) (s : Store)
    (nowTick : Nat) (ws : List WordEntry)
    (henabled : cfg.displayEnabled = true)
    (hinit : s.initialized = true)
    (hwords : s.words = some ws)
    (hcount : 1 ≤ s.wordCount)
    (hlo : 0 ≤ s.currentIndex) (hhi : s.currentIndex < s.wordCount)
    (hint : 0 < cfg.switchIntervalSec)
    (hdue : s.nextSwitchTick ≤ nowTick) :
    (WordsDisplay_Tick provider initTick cfg s nowTick).1.currentIndex
        = (s.currentIndex + 1) % s.wordCount
    ∧ (WordsDisplay_Tick provider initTick cfg s nowTick).1.nextSwitchTick
        = (nowTick + cfg.switchIntervalSec.toNat % dwordMod * 1000 % dwordMod)
            % dwordMod := by
  have hc0 : ¬ s.wordCount ≤ 0 := by omega
  have hi0 : ¬ cfg.switchIntervalSec ≤ 0 := by omega
  simp only [WordsDisplay_Tick, henabled, hinit, hwords, hc0, hi0, hdue,
    Bool.not_true, Bool.false_eq_true, if_false, if_true, ge_iff_le,
    Option.isNone_some, Bool.false_or, decide_eq_true_eq]
  exact ⟨setCurrentIndex_index s ws hwords hcount hlo hhi, trivial⟩

/-- C2 witness: a 3-entry store at index 2, deadline 5000, ticked at
1000000 (200 whole intervals beyond): the index moves one step to 0 and
the deadline re-arms to 1020000. -/
theorem tick_due_advances_exactly_one_witness :
    (WordsDisplay_Tick none 0 ⟨true, 20, true, 0, true, 10⟩
        { words := some [⟨['a'],[],[],[]⟩, ⟨['b'],[],[],[]⟩, ⟨['c'],[],[],[]⟩],
          wordCount := 3, currentIndex := 2,
          nextSwitchTick := 5000, initialized := true } 1000000).1.currentIndex
      = (2 + 1) % 3
    ∧ (WordsDisplay_Tick none 0 ⟨true, 20, true, 0, true, 10⟩
        { words := some [⟨['a'],[],[],[]⟩, ⟨['b'],[],[],[]⟩, ⟨['c'],[],[],[]⟩],
          wordCount := 3, currentIndex := 2,
          nextSwitchTick := 5000, initialized := true } 1000000).1.nextSwitchTick
      = (1000000 + (20 : Int).toNat % dwordMod * 1000 % dwordMod) % dwordMod :=
  tick_due_advances_exactly_one none 0 _ _ 1000000 _
    rfl rfl rfl (by decide) (by decide) (by decide) (by decide) (by decide)

/-! ## C3 -/

/-- C3: `WordsDisplay_Next` on an initialized store advances the current
index by one modulo the count — in particular from index `N-1` it wraps
to 0 — and returns `true` whenever the store holds at least 2 entries; on
an initialized store with zero usable entries it returns `false`. -/
theorem next_wraps_and_reports_change
    (provider : Option (List Char)) (initTick : Nat) (cfg : Config)
    (s t : Store) (now mow : Nat) (ws : List WordEntry)
    (hinit : s.initialized = true) (hwords : s.words = some ws)
    (hcount : 1 ≤ s.wordCount)
    (hlo : 0 ≤ s.currentIndex) (hhi : s.currentIndex < s.wordCount)
    (htinit : t.initialized = true)
    (htempty : t.words = none ∨ t.wordCount ≤ 0) :
    (WordsDisplay_Next provider initTick cfg s now).1.currentIndex
        = (s.currentIndex + 1) % s.wordCount
    ∧ (s.currentIndex = s.wordCount - 1 →
        (WordsDisplay_Next provider initTick cfg s now).1.currentIndex = 0)
    ∧ (2 ≤ s.wordCount →
        (WordsDisplay_Next provider initTick cfg s now).2 = true)
    ∧ (WordsDisplay_Next provider initTick cfg t mow).2 = false := by
  have hc0 : ¬ s.wordCount ≤ 0 := by omega
  have h1 : (WordsDisplay_Next provider initTick cfg s now).1.currentIndex
      = (s.currentIndex + 1) % s.wordCount := by
    have hidx := setCurrentIndex_index s ws hwords hcount hlo hhi
    simp only [WordsDisplay_Next, hinit, hwords, hc0, if_true,
      Option.isNone_some, Bool.false_or, decide_eq_true_eq, if_false]
    split_ifs <;> simpa using hidx
  refine ⟨h1, ?_, ?_, ?_⟩
  · intro hlast
    rw [h1]
    have he : s.currentIndex + 1 = s.wordCount := by omega
    rw [he, Int.emod_self]
  · intro h2
    have hch := setCurrentIndex_changed s ws hwords h2 hlo hhi
    simp only [WordsDisplay_Next, hinit, hwords, hc0, if_true,
      Option.isNone_some, Bool.false_or, decide_eq_true_eq, if_false]
    split_ifs <;> simpa using hch
  · have hguard : (t.words.isNone || decide (t.wordCount ≤ 0)) = true := by
      rcases htempty with hw | hc
      · simp [hw]
      · simp [hc]
    simp only [WordsDisplay_Next, htinit, if_true, hguard]

/-- C3 witness: a 3-entry store at index 2 (`N-1`) wraps to 0 with return
value `true`; an initialized store with no usable entries returns
`false`. -/
theorem next_wraps_and_reports_change_witness :
    (WordsDisplay_Next none 0 ⟨true, 20, true, 0, true, 10⟩
        { words := some [⟨['a'],[],[],[]⟩, ⟨['b'],[],[],[]⟩, ⟨['c'],[],[],[]⟩],
          wordCount := 3, currentIndex := 2,
          nextSwitchTick := 0, initialized := true } 77).1.currentIndex
      = (2 + 1) % 3
    ∧ ((2 : Int) = 3 - 1 →
        (WordsDisplay_Next none 0 ⟨true, 20, true, 0, true, 10⟩
          { words := some [⟨['a'],[],[],[]⟩, ⟨['b'],[],[],[]⟩, ⟨['c'],[],[],[]⟩],
            wordCount := 3, currentIndex := 2,
            nextSwitchTick := 0, initialized := true } 77).1.currentIndex = 0)
    ∧ ((2 : Int) ≤ 3 →
        (WordsDisplay_Next none 0 ⟨true, 20, true, 0, true, 10⟩
          { words := some [⟨['a'],[],[],[]⟩, ⟨['b'],[],[],[]⟩, ⟨['c'],[],[],[]⟩],
            wordCount := 3, currentIndex := 2,
            nextSwitchTick := 0, initialized := true } 77).2 = true)
    ∧ (WordsDisplay_Next none 0 ⟨true, 20, true, 0, true, 10⟩
        { words := none, wordCount := 0, currentIndex := -1,
          nextSwitchTick := 0, initialized := true } 5).2 = false :=
  next_wraps_and_reports_change none 0 _ _ _ 77 5 _
    rfl rfl (by decide) (by decide) (by decide) rfl (Or.inl rfl)

/-! ## C4 -/

/-- C4 counterexample: a buffer that splits into ten lines — the last one
not newline-terminated — is rejected by `ParseTsvToWords` with
`insufficientData` instead of proceeding to per-row filtering, because the
code counts `'\n'` characters (nine here), not lines. -/
theorem parse_ten_lines_no_final_newline_rejected :
    (splitLines tenLinesNoFinalNewline).length = 10
    ∧ ParseTsvToWords tenLinesNoFinalNewline = .error .insufficientData :=
  ⟨by decide, rfl⟩

/-- C4 amended: the parser fails with `insufficientData` exactly when the
buffer contains fewer than ten `'\n'` characters (ten newline-terminated
lines); with ten or more newlines it proceeds to per-row filtering and can
only fail with `noUsableEntries`. -/
theorem parse_insufficient_iff_newlines_lt_ten (wide : List Char) :
    ParseTsvToWords wide = .error .insufficientData
      ↔ countNewlines wide < 10 := by
  unfold ParseTsvToWords
  by_cases h1 : countNewlines wide < 10
  · simp [h1]
  · simp only [if_neg h1]
    refine ⟨fun h => ?_, fun h => absurd h h1⟩
    split at h
    · exact absurd (Except.error.inj h) (by decide)
    · exact Except.noConfusion h

/-! ## C5 -/

/-- C5 counterexample: the first `Init` with a failing provider reports
failure yet leaves the store MARKED initialized (not uninitialized as
claimed); a second `Init` — now with a provider whose buffer demonstrably
loads on a fresh store — returns success as a no-op, with no entries
loaded, instead of attempting the load again. -/
theorem init_failure_then_noop_retry :
    (WordsDisplay_Init none 0 cfgDefault initialStore).2 = false
    ∧ (WordsDisplay_Init none 0 cfgDefault initialStore).1.initialized = true
    ∧ (WordsDisplay_Init (some goodBuffer) 5 cfgDefault initialStore).2 = true
    ∧ WordsDisplay_Init (some goodBuffer) 5 cfgDefault
        (WordsDisplay_Init none 0 cfgDefault initialStore).1
      = ((WordsDisplay_Init none 0 cfgDefault initialStore).1, true)
    ∧ (WordsDisplay_Init none 0 cfgDefault initialStore).1.words = none := by
  refine ⟨rfl, rfl, ?_, rfl, rfl⟩
  rfl

/-- C5 amended: if the first `Init` call fails, the store keeps no entries
and its other fields are untouched, but it is marked initialized, so every
subsequent `Init` call returns success as a no-op rather than attempting
the load again. -/
theorem init_failure_marks_store (provider : Option (List Char))
    (initTick : Nat) (cfg : Config) (s : Store)
    (huninit : s.initialized = false)
    (hfail : (WordsDisplay_Init provider initTick cfg s).2 = false) :
    (WordsDisplay_Init provider initTick cfg s).1
      = { s with initialized := true }
    ∧ ∀ q t c2, WordsDisplay_Init q t c2
          ((WordsDisplay_Init provider initTick cfg s).1)
        = ((WordsDisplay_Init provider initTick cfg s).1, true) := by
  have h1 : (WordsDisplay_Init provider initTick cfg s).1
      = { s with initialized := true } := by
    cases provider with
    | none => simp [WordsDisplay_Init, huninit]
    | some buf =>
      cases hp : ParseTsvToWords buf with
      | error e => simp [WordsDisplay_Init, huninit, hp]
      | ok entries =>
        exfalso
        simp [WordsDisplay_Init, huninit, hp] at hfail
  refine ⟨h1, fun q t c2 => ?_⟩
  rw [h1]
  simp [WordsDisplay_Init]

/-- C5 amended witness: failing provider on the fresh store; the retry
with a loadable buffer is still a no-op success. -/
theorem init_failure_marks_store_witness :
    (WordsDisplay_Init none 0 cfgDefault initialStore).1
      = { initialStore with initialized := true }
    ∧ WordsDisplay_Init (some goodBuffer) 9 cfgDefault
        ((WordsDisplay_Init none 0 cfgDefault initialStore).1)
      = ((WordsDisplay_Init none 0 cfgDefault initialStore).1, true) :=
  ⟨(init_failure_marks_store none 0 cfgDefault initialStore rfl rfl).1,
   (init_failure_marks_store none 0 cfgDefault initialStore rfl rfl).2
     (some goodBuffer) 9 cfgDefault⟩

/-! ## C6 -/

/-- C6 counterexample: `storeTwoEntries` was armed at tick `2^32 - 1000`
with a 20000 ms interval, the arming wrapped to deadline 19000.  At tick
`2^32 - 500` — 500 ms after arming, well within one interval, hence not
yet due — `WordsDisplay_Tick` nevertheless fires and advances the index:
the comparison is a plain unsigned `>=`, not wrapping/overflow-safe. -/
theorem tick_wrapped_arming_fires_early :
    ((2 ^ 32 - 1000) + 20 * 1000) % dwordMod = storeTwoEntries.nextSwitchTick
    ∧ (2 ^ 32 - 500) - (2 ^ 32 - 1000) < 20 * 1000
    ∧ (WordsDisplay_Tick none 0 cfgEnabled storeTwoEntries (2 ^ 32 - 500)).2
        = true
    ∧ (WordsDisplay_Tick none 0 cfgEnabled storeTwoEntries
         (2 ^ 32 - 500)).1.currentIndex = 1 := by
  refine ⟨by decide, by decide, ?_, ?_⟩ <;> rfl

/-- C6 amended: `WordsDisplay_Tick` compares `now` against the armed
deadline with a plain unsigned `>=`, not a wrapping-aware comparison: the
deadline fires exactly when `now ≥ deadline` as plain 32-bit naturals —
re-arming from `now` when it fires, changing nothing when `now` is below
the deadline.  A deadline whose arming computation wrapped past `2^32` is
therefore treated as already due for the rest of the counter range. -/
theorem tick_uses_plain_unsigned_compare
    (provider : Option (List Char)) (initTick : Nat) (cfg : Config)
    (s : Store) (nowTick : Nat) (ws : List WordEntry)
    (henabled : cfg.displayEnabled = true)
    (hinit : s.initialized = true)
    (hwords : s.words = some ws)
    (hcount : 1 ≤ s.wordCount)
    (hint : 0 < cfg.switchIntervalSec) :
    (s.nextSwitchTick ≤ nowTick →
      (WordsDisplay_Tick provider initTick cfg s nowTick).1.nextSwitchTick
        = (nowTick + cfg.switchIntervalSec.toNat % dwordMod * 1000 % dwordMod)
            % dwordMod)
    ∧ (nowTick < s.nextSwitchTick →
      WordsDisplay_Tick provider initTick cfg s nowTick = (s, false)) := by
  have hc0 : ¬ s.wordCount ≤ 0 := by omega
  have hi0 : ¬ cfg.switchIntervalSec ≤ 0 := by omega
  constructor
  · intro hdue
    simp only [WordsDisplay_Tick, henabled, hinit, hwords, hc0, hi0, hdue,
      Bool.not_true, Bool.false_eq_true, if_false, if_true, ge_iff_le,
      Option.isNone_some, Bool.false_or, decide_eq_true_eq]
  · intro hnot
    have hge : ¬ s.nextSwitchTick ≤ nowTick := by omega
    simp only [WordsDisplay_Tick, henabled, hinit, hwords, hc0, hi0, hge,
      Bool.not_true, Bool.false_eq_true, if_false, if_true, ge_iff_le,
      Option.isNone_some, Bool.false_or, decide_eq_true_eq]

/-- C6 amended witness: the same wrapped store fires at `2^32 - 500`
(re-arming to `(2^32 - 500 + 20000) % 2^32 = 19500`) and does nothing at
tick 100, which is below the deadline 19000. -/
theorem tick_uses_plain_unsigned_compare_witness :
    (WordsDisplay_Tick none 0 cfgEnabled storeTwoEntries
        (2 ^ 32 - 500)).1.nextSwitchTick
      = ((2 ^ 32 - 500) +
          (20 : Int).toNat % dwordMod * 1000 % dwordMod) % dwordMod
    ∧ WordsDisplay_Tick none 0 cfgEnabled storeTwoEntries 100
      = (storeTwoEntries, false) :=
  ⟨(tick_uses_plain_unsigned_compare none 0 cfgEnabled storeTwoEntries
      (2 ^ 32 - 500) _ rfl rfl rfl (by decide) (by decide)).1 (by decide),
   (tick_uses_plain_unsigned_compare none 0 cfgEnabled storeTwoEntries
      100 _ rfl rfl rfl (by decide) (by decide)).2 (by decide)⟩

/-! ## C7 -/

theorem appendWithLimit_append (out : List Char) (n : Nat) (s1 s2 : List Char) :
    AppendWithLimit (AppendWithLimit out n s1) n s2
      = AppendWithLimit out n (s1 ++ s2) := by
  by_cases h0 : n = 0
  · simp [AppendWithLimit, h0]
  · by_cases h1 : out.length ≥ n - 1
    · simp [AppendWithLimit, h0, h1]
    · have hlen : (out ++ s1.take (n - 1 - out.length)).length
          = out.length + min (n - 1 - out.length) s1.length := by
        simp [List.length_take]
      by_cases h2 : n - 1 - out.length ≤ s1.length
      · have hfull : (out ++ s1.take (n - 1 - out.length)).length ≥ n - 1 := by
          rw [hlen]; omega
        simp only [AppendWithLimit, if_neg h0, if_neg h1, if_pos hfull]
        rw [List.take_append_eq_append_take]
        have hz : n - 1 - out.length - s1.length = 0 := by omega
        rw [hz, List.take_zero, List.append_nil]
      · have hs1 : s1.take (n - 1 - out.length) = s1 :=
          List.take_of_length_le (by omega)
        have hsmall : ¬ (out ++ s1.take (n - 1 - out.length)).length ≥ n - 1 := by
          rw [hlen]; omega
        have hfull2 : (s1 ++ s2).take (n - 1 - out.length)
            = s1 ++ s2.take (n - 1 - out.length - s1.length) := by
          rw [List.take_append_eq_append_take, hs1]
        simp only [AppendWithLimit, if_neg h0, if_neg h1, if_neg hsmall]
        rw [hs1, hfull2, ← List.append_assoc]
        congr 1
        congr 1
        simp only [List.length_append]
        omega

/-- C7: translation truncation in `AppendCnTruncated` for a non-empty
translation `cn`: with a non-positive configured max the translation is
submitted to the capacity-limited append in full; within the max it is
submitted verbatim; above the max exactly the first `min max 240`
characters followed by a single ellipsis character are submitted (each
append still truncating against remaining buffer capacity). -/
theorem appendCnTruncated_truncation (maxLen : Int) (out : List Char)
    (outChars : Nat) (cn : List Char) (hcn : cn ≠ []) :
    (maxLen ≤ 0 →
      AppendCnTruncated maxLen out outChars cn
        = AppendWithLimit out outChars cn)
    ∧ (0 < maxLen → (cn.length : Int) ≤ maxLen →
      AppendCnTruncated maxLen out outChars cn
        = AppendWithLimit out outChars cn)
    ∧ (0 < maxLen → maxLen < (cn.length : Int) →
      AppendCnTruncated maxLen out outChars cn
        = AppendWithLimit out outChars
            (cn.take (min maxLen.toNat 240) ++ ellipsis)) := by
  refine ⟨?_, ?_, ?_⟩
  · intro hle
    simp [AppendCnTruncated, hcn, hle]
  · intro hpos hwithin
    have hnle : ¬ maxLen ≤ 0 := by omega
    simp [AppendCnTruncated, hcn, hnle, hwithin]
  · intro hpos hover
    have hnle : ¬ maxLen ≤ 0 := by omega
    have hnwithin : ¬ (cn.length : Int) ≤ maxLen := by omega
    have hcopy : (if maxLen.toNat > 240 then 240 else maxLen.toNat)
        = min maxLen.toNat 240 := by
      rw [Nat.min_def]; split_ifs <;> omega
    simp only [AppendCnTruncated, if_neg hcn, if_neg hnle, if_neg hnwithin,
      hcopy]
    rw [appendWithLimit_append]

/-- C7 witness: max 3 over a 5-character translation appends the first 3
characters plus the ellipsis; max 0 appends in full; a translation within
the max is verbatim. -/
theorem appendCnTruncated_truncation_witness :
    ((3 : Int) ≤ 0 →
      AppendCnTruncated 3 [] 100 ['a', 'b', 'c', 'd', 'e']
        = AppendWithLimit [] 100 ['a', 'b', 'c', 'd', 'e'])
    ∧ ((0 : Int) < 3 → (([' '].length : Int) ≤ 3 →
      AppendCnTruncated 3 [] 100 [' ']
        = AppendWithLimit [] 100 [' ']))
    ∧ ((0 : Int) < 3 → (3 : Int) < (['a', 'b', 'c', 'd', 'e'].length : Int) →
      AppendCnTruncated 3 [] 100 ['a', 'b', 'c', 'd', 'e']
        = AppendWithLimit [] 100
            (['a', 'b', 'c', 'd', 'e'].take (min (3 : Int).toNat 240)
              ++ ellipsis)) :=
  ⟨(appendCnTruncated_truncation 3 [] 100 ['a', 'b', 'c', 'd', 'e']
      (by decide)).1,
   fun h1 h2 => (appendCnTruncated_truncation 3 [] 100 [' ']
      (by decide)).2.1 h1 h2,
   (appendCnTruncated_truncation 3 [] 100 ['a', 'b', 'c', 'd', 'e']
      (by decide)).2.2⟩

/-! ## C8 -/

/-- The data-model invariant: whenever the store holds at least one
entry, the current index lies within `[0, count)`. -/
def StoreInv (s : Store) : Prop :=
  1 ≤ s.wordCount → 0 ≤ s.currentIndex ∧ s.currentIndex < s.wordCount

theorem storeInv_init (provider : Option (List Char)) (initTick : Nat)
    (cfg : Config) (s : Store) (h : StoreInv s) :
    StoreInv (WordsDisplay_Init provider initTick cfg s).1 := by
  by_cases h1 : s.initialized
  · simpa [WordsDisplay_Init, h1] using h
  · cases provider with
    | none => simpa [WordsDisplay_Init, h1, StoreInv] using h
    | some buf =>
      cases hp : ParseTsvToWords buf with
      | error e => simpa [WordsDisplay_Init, h1, hp, StoreInv] using h
      | ok entries =>
        simp only [WordsDisplay_Init, h1, hp, Bool.false_eq_true, if_false,
          StoreInv]
        intro hc
        have hlen : 0 < entries.length := by exact_mod_cast hc
        have hpos : ((entries.length : Int) > 0) := by exact_mod_cast hlen
        simp only [hpos, if_pos, if_true]
        constructor
        · exact Int.ofNat_nonneg _
        · exact_mod_cast Nat.mod_lt initTick hlen

theorem storeInv_setCurrentIndex (s : Store) (idx : Int) (h : StoreInv s) :
    StoreInv (SetCurrentIndex s idx).1 := by
  simp only [SetCurrentIndex]
  split_ifs <;>
    first
      | exact h
      | (intro hc; dsimp only at hc ⊢; omega)

theorem storeInv_shutdown (s : Store) : StoreInv (WordsDisplay_Shutdown s) := by
  intro hc
  simp [WordsDisplay_Shutdown] at hc

theorem storeInv_next (provider : Option (List Char)) (initTick : Nat)
    (cfg : Config) (s : Store) (now : Nat) (h : StoreInv s) :
    StoreInv (WordsDisplay_Next provider initTick cfg s now).1 := by
  have h0 : StoreInv (if s.initialized then s
      else (WordsDisplay_Init provider initTick cfg s).1) := by
    split_ifs
    · exact h
    · exact storeInv_init provider initTick cfg s h
  simp only [WordsDisplay_Next]
  generalize (if s.initialized = true then s
      else (WordsDisplay_Init provider initTick cfg s).1) = s0 at h0 ⊢
  split_ifs with hg hi
  · exact h0
  · exact storeInv_setCurrentIndex _ _ h0
  · exact storeInv_setCurrentIndex _ _ h0

theorem storeInv_tick (provider : Option (List Char)) (initTick : Nat)
    (cfg : Config) (s : Store) (nowTick : Nat) (h : StoreInv s) :
    StoreInv (WordsDisplay_Tick provider initTick cfg s nowTick).1 := by
  have h0 : StoreInv (if s.initialized then s
      else (WordsDisplay_Init provider initTick cfg s).1) := by
    split_ifs
    · exact h
    · exact storeInv_init provider initTick cfg s h
  simp only [WordsDisplay_Tick]
  by_cases he : (!cfg.displayEnabled) = true
  · simp only [he, if_true]
    exact h
  · simp only [he, Bool.false_eq_true, if_false]
    generalize (if s.initialized = true then s
        else (WordsDisplay_Init provider initTick cfg s).1) = s0 at h0 ⊢
    split_ifs with hg hi hd
    · exact h0
    · exact h0
    · exact storeInv_setCurrentIndex _ _ h0
    · exact h0

theorem storeInv_formatSuffix (provider : Option (List Char)) (initTick : Nat)
    (cfg : Config) (s : Store) (outChars : Nat) (h : StoreInv s) :
    StoreInv (WordsDisplay_FormatSuffix provider initTick cfg s outChars).1 := by
  have h0 : StoreInv (if s.initialized then s
      else (WordsDisplay_Init provider initTick cfg s).1) := by
    split_ifs
    · exact h
    · exact storeInv_init provider initTick cfg s h
  simp only [WordsDisplay_FormatSuffix]
  by_cases hz : outChars = 0
  · simp only [hz, if_pos, if_true]
    exact h
  · simp only [hz, if_false]
    by_cases he : (!cfg.displayEnabled) = true
    · simp only [he, if_true]
      exact h
    · simp only [he, Bool.false_eq_true, if_false]
      generalize (if s.initialized = true then s
          else (WordsDisplay_Init provider initTick cfg s).1) = s0 at h0 ⊢
      split_ifs with hg
      · exact h0
      · exact h0

/-- C8: every public operation — `Init`, `Next`, `Tick`, `FormatSuffix`
and `Shutdown` — preserves the invariant that the current index lies
within `[0, count)` whenever the store holds at least one entry. -/
theorem index_invariant_preserved
    (provider : Option (List Char)) (initTick : Nat) (cfg : Config)
    (s : Store) (now nowTick outChars : Nat) (h : StoreInv s) :
    StoreInv (WordsDisplay_Init provider initTick cfg s).1
    ∧ StoreInv (WordsDisplay_Next provider initTick cfg s now).1
    ∧ StoreInv (WordsDisplay_Tick provider initTick cfg s nowTick).1
    ∧ StoreInv (WordsDisplay_FormatSuffix provider initTick cfg s outChars).1
    ∧ StoreInv (WordsDisplay_Shutdown s) :=
  ⟨storeInv_init provider initTick cfg s h,
   storeInv_next provider initTick cfg s now h,
   storeInv_tick provider initTick cfg s nowTick h,
   storeInv_formatSuffix provider initTick cfg s outChars h,
   storeInv_shutdown s⟩

/-- C8 witness: the invariant holds on the fresh store and is preserved
through each operation at concrete arguments. -/
theorem index_invariant_preserved_witness :
    StoreInv (WordsDisplay_Init (some goodBuffer) 3 cfgEnabled initialStore).1
    ∧ StoreInv (WordsDisplay_Next (some goodBuffer) 3 cfgEnabled
        initialStore 50).1
    ∧ StoreInv (WordsDisplay_Tick (some goodBuffer) 3 cfgEnabled
        initialStore 60).1
    ∧ StoreInv (WordsDisplay_FormatSuffix (some goodBuffer) 3 cfgEnabled
        initialStore 16).1
    ∧ StoreInv (WordsDisplay_Shutdown initialStore) :=
  index_invariant_preserved (some goodBuffer) 3 cfgEnabled initialStore
    50 60 16 (fun hc => by simp [initialStore] at hc)

/-! ## C9 -/

theorem dropWhile_append_all {p : Char → Bool} (l1 l2 : List Char)
    (h : ∀ c ∈ l1, p c = true) :
    (l1 ++ l2).dropWhile p = l2.dropWhile p := by
  induction l1 with
  | nil => rfl
  | cons a t ih =>
    have ha : p a = true := h a (List.mem_cons_self _ _)
    simp only [List.cons_append, List.dropWhile_cons_of_pos ha]
    exact ih (fun x hx => h x (List.mem_cons_of_mem _ hx))

/-- C9 counterexample: the field `"\rcat"` keeps its leading carriage
return — `TrimWideInPlace` strips CR only from the end of a field, not
its start — and parsing `crFieldBuffer` yields a first entry whose name
still begins with the CR, so fields are not trimmed of leading whitespace
in the claimed space/tab/CR/LF sense. -/
theorem leading_carriage_return_not_trimmed :
    TrimWideInPlace ('\r' :: 'c' :: 'a' :: 't' :: [])
      = '\r' :: 'c' :: 'a' :: 't' :: []
    ∧ (ParseTsvToWords crFieldBuffer).toOption.map
        (fun es => (es.headD emptyEntry).name)
      = some ('\r' :: 'c' :: 'a' :: 't' :: []) :=
  ⟨by decide, rfl⟩

/-- C9 amended: every field is trimmed of trailing whitespace — spaces,
tabs, carriage returns and newlines — and of leading spaces and tabs
only; in particular `"  cat\t "` still trims to `"cat"`. -/
theorem trim_strips_trailing_ws_and_leading_space_tab
    (pre mid post : List Char) (c d : Char)
    (hpre : ∀ x ∈ pre, isLeadWs x = true)
    (hpost : ∀ x ∈ post, isTrailWs x = true)
    (hhead : mid.head? = some c) (hc : isLeadWs c = false)
    (hlast : mid.getLast? = some d) (hd : isTrailWs d = false) :
    TrimWideInPlace (pre ++ mid ++ post) = mid := by
  obtain ⟨t, ht⟩ : ∃ t, mid.reverse = d :: t := by
    cases hm : mid.reverse with
    | nil =>
      have hmid : mid = [] := by simpa using congrArg List.reverse hm
      rw [hmid] at hhead
      exact absurd hhead (by simp)
    | cons x xs =>
      have h1 : mid.reverse.head? = some x := by rw [hm]; rfl
      rw [List.head?_reverse, hlast] at h1
      have hx : d = x := Option.some.inj h1
      exact ⟨xs, by simp [hm, hx]⟩
  obtain ⟨m2, hm2⟩ : ∃ m2, mid = c :: m2 := by
    cases hm : mid with
    | nil => rw [hm] at hhead; exact absurd hhead (by simp)
    | cons x xs =>
      rw [hm] at hhead
      have hx : x = c := by simpa using hhead
      exact ⟨xs, by simp [hm, hx]⟩
  unfold TrimWideInPlace
  have hrev : (pre ++ mid ++ post).reverse
      = post.reverse ++ (mid.reverse ++ pre.reverse) := by
    simp [List.reverse_append, List.append_assoc]
  rw [hrev,
    dropWhile_append_all _ _ (fun x hx => hpost x (List.mem_reverse.mp hx)),
    ht, List.cons_append,
    List.dropWhile_cons_of_neg (by simp [hd]),
    ← List.cons_append, ← ht]
  have hback : (mid.reverse ++ pre.reverse).reverse = pre ++ mid := by
    simp [List.reverse_append]
  rw [hback, dropWhile_append_all _ _ hpre, hm2,
    List.dropWhile_cons_of_neg (by simp [hc])]

/-- C9 amended witness: `"  cat\t "` — two leading spaces, trailing tab
and space — trims to `"cat"`. -/
theorem trim_strips_trailing_ws_and_leading_space_tab_witness :
    TrimWideInPlace ([' ', ' '] ++ ['c', 'a', 't'] ++ ['\t', ' '])
      = ['c', 'a', 't'] :=
  trim_strips_trailing_ws_and_leading_space_tab
    [' ', ' '] ['c', 'a', 't'] ['\t', ' '] 'c' 't'
    (by decide) (by decide) rfl (by decide) rfl (by decide)

/-! ## C10 -/

/-- C10: with the display-enabled flag false, `WordsDisplay_Tick` returns
`false` and `WordsDisplay_FormatSuffix` writes only the empty string, and
neither performs lazy initialization nor modifies any component of the
store: both return the store exactly as given. -/
theorem disabled_flag_frame (provider : Option (List Char)) (initTick : Nat)
    (cfg : Config) (s : Store) (nowTick outChars : Nat)
    (hdis : cfg.displayEnabled = false) (hcap : 1 ≤ outChars) :
    WordsDisplay_Tick provider initTick cfg s nowTick = (s, false)
    ∧ WordsDisplay_FormatSuffix provider initTick cfg s outChars
        = (s, some []) := by
  have hz : ¬ outChars = 0 := by omega
  constructor
  · simp [WordsDisplay_Tick, hdis]
  · simp [WordsDisplay_FormatSuffix, hdis, hz]

/-- C10 witness: with the disabled default configuration, an
uninitialized store and a loadable provider buffer, `Tick` and
`FormatSuffix` leave the store untouched (no lazy init happens). -/
theorem disabled_flag_frame_witness :
    WordsDisplay_Tick (some goodBuffer) 1 cfgDefault initialStore 999999
      = (initialStore, false)
    ∧ WordsDisplay_FormatSuffix (some goodBuffer) 1 cfgDefault initialStore 64
      = (initialStore, some []) :=
  disabled_flag_frame (some goodBuffer) 1 cfgDefault initialStore 999999 64
    rfl (by decide)

end WordsDisplay
